import Mathlib

/-!
Verification development for the OpenTheremin4-MatrixUI display firmware core.

The development shallowly embeds the three core components of the display
firmware:

* the frequency acquisition engine (`freq.cpp`): `freq_init`, `freq_read`,
  modelled as an explicit state machine over exact rationals (the float
  arithmetic there is division and an EMA with coefficient 1/4; `NAN` is
  modelled by `Option.none`);
* the pitch mapper (`HT1635::frequency_to_note` in `HT1635.cpp`): modelled
  over exact reals, with the float constant `INV_LN2 = 1.4426950408889634f`
  read as the mathematical constant `1 / ln 2` it denotes, so that
  `logf(x) * INV_LN2` becomes `Real.logb 2 x`;
* the view renderer (`HT1635::render_pitch_and_drift`,
  `HT1635::display_keyboard_drift`, `HT1635::set_tuner_view_mode`),
  modelled as state-passing functions that also return the byte writes
  they would emit.

C `float` values that can be `NaN` or infinite are modelled by the
inductive `FloatR` below; C unsigned 32-bit wraparound arithmetic is
modelled by explicit reduction modulo `2^32`; C `int` casts of floats
truncate toward zero (`truncR`); C `/` and `%` on signed integers are
`Int.tdiv` and `Int.tmod`.
-/

namespace OT4

/-! ### Frequency acquisition engine (`freq.cpp`)

Constants from `freq.cpp` lines 38-54.  `TICKS_MIN = (uint32)(2000000.0f
/ 10000.0f) = 200` and `TICKS_MAX = (uint32)(2000000.0f / 30.0f) =
66666` (the float quotient 66666.66... truncates to 66666). -/

def TIMER1_CLK_HZ : ℕ := 2000000

def TICKS_MIN : ℕ := 200

def TICKS_MAX : ℕ := 66666

def NO_SIGNAL_TIMEOUT_MS : ℕ := 120

/-- Reduction of a natural number to its `uint32_t` value. -/
def u32 (n : ℕ) : ℕ := n % 4294967296

/-- `uint32_t` subtraction `a - b` (wraparound, as in
`cap - s_prevIcr32` and `millis() - s_lastOkMs`). -/
def sub32 (a b : ℕ) : ℕ := (((a : ℤ) - (b : ℤ)) % 4294967296).toNat

/-- Foreground state of `freq.cpp`: `s_prevIcr32`, `s_freq_ema`,
`s_freq_raw`, `s_lastOkMs` (lines 66-74).  The two float fields are
`none` when the C value is `NAN`. -/
structure FreqState where
  prevIcr32 : ℕ
  freq_ema : Option ℚ
  freq_raw : Option ℚ
  lastOkMs : ℕ
deriving DecidableEq, Repr

/-- `freq_init` (lines 104-110): clears the baseline and both float
fields (to `NAN`) and records the current `millis()`. -/
def freq_init (nowMs : ℕ) : FreqState :=
  { prevIcr32 := 0, freq_ema := none, freq_raw := none, lastOkMs := u32 nowMs }

/-- Which control-flow path a `freq_read` call took (instrumentation of
the shallow embedding; the paths correspond to the branches of
`freq_read`, lines 132-163). -/
inductive ReadPath where
  | noCapture
  | primed
  | rejected
  | accepted
deriving DecidableEq, Repr

/-- Result of one `freq_read` call: the new module state, the returned
float (`none` models returning `NAN`) and the path taken. -/
structure ReadResult where
  state : FreqState
  ret : Option ℚ
  path : ReadPath
deriving DecidableEq, Repr

/-- The final no-signal check of `freq_read` (lines 165-170):
`if ((uint32_t)(millis() - s_lastOkMs) > NO_SIGNAL_TIMEOUT_MS) return 0.f;
return s_freq_ema;`. -/
def timeout_result (s : FreqState) (p : ReadPath) (nowMs : ℕ) : ReadResult :=
  if NO_SIGNAL_TIMEOUT_MS < sub32 nowMs s.lastOkMs then ⟨s, some 0, p⟩
  else ⟨s, s.freq_ema, p⟩

/-- The NaN-safe EMA update of `freq_read` (lines 151-157): if the EMA is
uninitialized start from the first valid value, otherwise
`ema += (f - ema) * (1/4)`. -/
def emaStep (ema? : Option ℚ) (f : ℚ) : ℚ :=
  match ema? with
  | none => f
  | some e => e + (f - e) * (1 / 4)

/-- One call of `freq_read` (lines 119-171).  `cap?` is the pending
extended capture fetched atomically at the top (`none` when `s_newCap`
was clear), `nowMs` is `millis()` at this call.  Note the priming branch
(lines 133-138) returns early and never reaches the timeout check, and
the baseline `s_prevIcr32` is updated before the tick-band check (line
142).  Inside the in-band branch `ticks ≥ TICKS_MIN > 0`, so
`f = 2000000 / ticks` is finite and the `isfinite(f)` guard of line 148
is always true there. -/
def freq_read (s : FreqState) (cap? : Option ℕ) (nowMs : ℕ) : ReadResult :=
  match cap? with
  | none => timeout_result s .noCapture nowMs
  | some cap0 =>
    let cap := u32 cap0
    if s.prevIcr32 = 0 then
      ⟨{ s with prevIcr32 := cap }, s.freq_ema, .primed⟩
    else
      let ticks := sub32 cap s.prevIcr32
      let s1 := { s with prevIcr32 := cap }
      if TICKS_MIN ≤ ticks ∧ ticks ≤ TICKS_MAX then
        let f : ℚ := (TIMER1_CLK_HZ : ℚ) / (ticks : ℚ)
        let s2 := { s1 with freq_raw := some f,
                            freq_ema := some (emaStep s1.freq_ema f),
                            lastOkMs := u32 nowMs }
        timeout_result s2 .accepted nowMs
      else
        timeout_result s1 .rejected nowMs

/-- Folding a list of foreground polls (pending capture, `millis()`)
over a starting state. -/
def runFrom (s : FreqState) : List (Option ℕ × ℕ) → FreqState
  | [] => s
  | e :: es => runFrom (freq_read s e.1 e.2).state es

@[simp] lemma timeout_result_state (s : FreqState) (p : ReadPath) (n : ℕ) :
    (timeout_result s p n).state = s := by
  unfold timeout_result; split <;> rfl

@[simp] lemma timeout_result_path (s : FreqState) (p : ReadPath) (n : ℕ) :
    (timeout_result s p n).path = p := by
  unfold timeout_result; split <;> rfl

/-- Lower bound on every frequency accepted by the tick band: an in-band
`ticks ≤ TICKS_MAX` gives `f = 2000000 / ticks ≥ 2000000 / 66666`. -/
lemma accepted_freq_lower (ticks : ℕ) (h1 : TICKS_MIN ≤ ticks) (h2 : ticks ≤ TICKS_MAX) :
    (2000000 / 66666 : ℚ) ≤ (TIMER1_CLK_HZ : ℚ) / (ticks : ℚ) := by
  have hpos : (0 : ℚ) < (ticks : ℚ) := by
    have : (0 : ℕ) < ticks := lt_of_lt_of_le (by norm_num [TICKS_MIN]) h1
    exact_mod_cast this
  have hle : (ticks : ℚ) ≤ 66666 := by
    have : ticks ≤ 66666 := h2
    exact_mod_cast this
  have h2e6 : (0 : ℚ) ≤ 2000000 := by norm_num
  calc (2000000 / 66666 : ℚ) ≤ 2000000 / (ticks : ℚ) := by
        apply div_le_div_of_nonneg_left h2e6 hpos hle
    _ = (TIMER1_CLK_HZ : ℕ) / (ticks : ℚ) := by norm_num [TIMER1_CLK_HZ]

/-- The smoothed-estimate band invariant: whenever `s_freq_ema` holds a
value, that value is at least `2000000 / 66666` Hz (≈ 30.0003 Hz). -/
def emaInBand (s : FreqState) : Prop :=
  ∀ q : ℚ, s.freq_ema = some q → (2000000 / 66666 : ℚ) ≤ q

lemma emaInBand_step (s : FreqState) (cap? : Option ℕ) (nowMs : ℕ)
    (h : emaInBand s) : emaInBand (freq_read s cap? nowMs).state := by
  unfold freq_read
  match cap? with
  | none => simpa using h
  | some cap0 =>
    by_cases h0 : s.prevIcr32 = 0
    · simp only [h0, if_pos rfl]
      intro q hq
      exact h q hq
    · simp only [if_neg h0]
      by_cases hband : TICKS_MIN ≤ sub32 (u32 cap0) s.prevIcr32 ∧
          sub32 (u32 cap0) s.prevIcr32 ≤ TICKS_MAX
      · simp only [if_pos hband, timeout_result_state]
        intro q hq
        simp only [Option.some.injEq] at hq
        subst hq
        have hf := accepted_freq_lower _ hband.1 hband.2
        unfold emaStep
        match hema : s.freq_ema with
        | none => exact hf
        | some e =>
          have he := h e hema
          set f : ℚ := (TIMER1_CLK_HZ : ℚ) / (sub32 (u32 cap0) s.prevIcr32 : ℚ) with hfdef
          have : (2000000 / 66666 : ℚ) ≤ e + (f - e) * (1 / 4) := by linarith
          simpa using this
      · simp only [if_neg hband, timeout_result_state]
        intro q hq
        exact h q hq

lemma emaInBand_runFrom (s : FreqState) (events : List (Option ℕ × ℕ))
    (h : emaInBand s) : emaInBand (runFrom s events) := by
  induction events generalizing s with
  | nil => exact h
  | cons e es ih => exact ih _ (emaInBand_step s e.1 e.2 h)

/-- Evaluation of the first call of the C1/C6 scenario: priming on a
first capture at extended timestamp 1000. -/
lemma freq_scenario_step1 :
    freq_read (freq_init 0) (some 1000) 0 = ⟨⟨1000, none, none, 0⟩, none, .primed⟩ := by
  simp [freq_read, freq_init, u32]

/-- Evaluation of the second call: an in-band delta of 300 ticks is
accepted, giving a raw and smoothed estimate of 20000/3 Hz. -/
lemma freq_scenario_step2 :
    freq_read ⟨1000, none, none, 0⟩ (some 1300) 0
      = ⟨⟨1300, some (20000 / 3), some (20000 / 3), 0⟩, some (20000 / 3), .accepted⟩ := by
  simp [freq_read, u32, sub32, TICKS_MIN, TICKS_MAX, TIMER1_CLK_HZ, emaStep,
    timeout_result, NO_SIGNAL_TIMEOUT_MS]
  norm_num

/-- Evaluation of the third call: a capture with extended timestamp
exactly 0 yields the out-of-band wraparound delta `2^32 - 1300`; it is
rejected, but the baseline is overwritten with 0 first. -/
lemma freq_scenario_step3 :
    freq_read ⟨1300, some (20000 / 3), some (20000 / 3), 0⟩ (some 0) 50
      = ⟨⟨0, some (20000 / 3), some (20000 / 3), 0⟩, some (20000 / 3), .rejected⟩ := by
  simp [freq_read, u32, sub32, TICKS_MIN, TICKS_MAX, TIMER1_CLK_HZ, emaStep,
    timeout_result, NO_SIGNAL_TIMEOUT_MS]

lemma freq_scenario_run3 :
    runFrom (freq_init 0) [(some 1000, 0), (some 1300, 0), (some 0, 50)]
      = ⟨0, some (20000 / 3), some (20000 / 3), 0⟩ := by
  simp [runFrom, freq_scenario_step1, freq_scenario_step2, freq_scenario_step3]

/-- C1 (counterexample): the claim fails as stated.  In the run below, a
valid estimate 20000/3 Hz is established, then an out-of-band capture
with extended timestamp exactly 0 is rejected but still overwrites the
baseline `s_prevIcr32` with 0.  The next call, made 300 ms after the
last accepted valid capture (well past the 120 ms timeout window), takes
the priming early-return and hands back the stale smoothed estimate
20000/3 instead of the no-signal sentinel 0. -/
theorem freq_timeout_priming_counterexample :
    (NO_SIGNAL_TIMEOUT_MS <
        sub32 300 (runFrom (freq_init 0)
          [(some 1000, 0), (some 1300, 0), (some 0, 50)]).lastOkMs)
    ∧ (runFrom (freq_init 0)
          [(some 1000, 0), (some 1300, 0), (some 0, 50)]).freq_ema = some (20000 / 3)
    ∧ (freq_read (runFrom (freq_init 0)
          [(some 1000, 0), (some 1300, 0), (some 0, 50)]) (some 5000) 300).ret
        = some (20000 / 3)
    ∧ (freq_read (runFrom (freq_init 0)
          [(some 1000, 0), (some 1300, 0), (some 0, 50)]) (some 5000) 300).ret
        ≠ some 0 := by
  rw [freq_scenario_run3]
  refine ⟨by decide, rfl, ?_, ?_⟩
  · simp [freq_read, u32]
  · simp [freq_read, u32]

/-- C1 (amended): every `freq_read` call that does not take the priming
early-return returns the sentinel `0` whenever the timeout window has
elapsed since the last accepted valid capture (as recorded in
`lastOkMs` after this call's own update); and the sentinel is distinct
from any legitimately low reading, because every smoothed estimate ever
stored by a run of the engine is at least `2000000 / 66666` Hz, which is
strictly positive. -/
theorem freq_timeout_sentinel :
    (∀ (s : FreqState) (cap? : Option ℕ) (nowMs : ℕ),
        (freq_read s cap? nowMs).path ≠ .primed →
        NO_SIGNAL_TIMEOUT_MS < sub32 nowMs (freq_read s cap? nowMs).state.lastOkMs →
        (freq_read s cap? nowMs).ret = some 0)
    ∧ (∀ (startMs : ℕ) (events : List (Option ℕ × ℕ)) (q : ℚ),
        (runFrom (freq_init startMs) events).freq_ema = some q →
        (2000000 / 66666 : ℚ) ≤ q)
    ∧ (0 : ℚ) < 2000000 / 66666 := by
  refine ⟨?_, ?_, by norm_num⟩
  · intro s cap? nowMs hpath htime
    unfold freq_read at *
    match cap? with
    | none =>
      simp only [timeout_result_state] at htime
      simp [timeout_result, if_pos htime]
    | some cap0 =>
      by_cases h0 : s.prevIcr32 = 0
      · simp [h0] at hpath
      · simp only [if_neg h0] at hpath htime ⊢
        by_cases hband : TICKS_MIN ≤ sub32 (u32 cap0) s.prevIcr32 ∧
            sub32 (u32 cap0) s.prevIcr32 ≤ TICKS_MAX
        · simp only [if_pos hband, timeout_result_state] at htime ⊢
          simp [timeout_result, if_pos htime]
        · simp only [if_neg hband, timeout_result_state] at htime ⊢
          simp [timeout_result, if_pos htime]
  · intro startMs events q hq
    have h0 : emaInBand (freq_init startMs) := by
      intro q hq; simp [freq_init] at hq
    exact emaInBand_runFrom _ events h0 q hq

/-- Witness for `freq_timeout_sentinel` at concrete inputs: a stalled
state 200 ms after the last valid update returns the sentinel, and the
concrete smoothed estimate 20000/3 established by a two-capture run is
indeed above the band floor. -/
theorem freq_timeout_sentinel_witness :
    (freq_read ⟨1000, some 5000, none, 0⟩ none 200).ret = some 0
    ∧ (2000000 / 66666 : ℚ) ≤ 20000 / 3 :=
  ⟨freq_timeout_sentinel.1 ⟨1000, some 5000, none, 0⟩ none 200 (by decide) (by decide),
   freq_timeout_sentinel.2.1 0 [(some 1000, 0), (some 1300, 0)] (20000 / 3)
     (by simp [runFrom, freq_scenario_step1, freq_scenario_step2])⟩

/-- C5: a non-first capture whose tick delta falls outside the
`[TICKS_MIN, TICKS_MAX]` band is rejected: the stored smoothed estimate
is left unchanged by the call, while the baseline `s_prevIcr32` is still
updated to the current extended timestamp unconditionally. -/
theorem freq_read_out_of_band (s : FreqState) (cap0 nowMs : ℕ)
    (h0 : s.prevIcr32 ≠ 0)
    (hband : sub32 (u32 cap0) s.prevIcr32 < TICKS_MIN ∨
      TICKS_MAX < sub32 (u32 cap0) s.prevIcr32) :
    (freq_read s (some cap0) nowMs).state.freq_ema = s.freq_ema
    ∧ (freq_read s (some cap0) nowMs).state.prevIcr32 = u32 cap0
    ∧ (freq_read s (some cap0) nowMs).path = .rejected := by
  have hban : ¬ (TICKS_MIN ≤ sub32 (u32 cap0) s.prevIcr32 ∧
      sub32 (u32 cap0) s.prevIcr32 ≤ TICKS_MAX) := by
    rcases hband with h | h
    · exact fun hc => absurd hc.1 (not_le.mpr h)
    · exact fun hc => absurd hc.2 (not_le.mpr h)
  unfold freq_read
  simp [if_neg h0, if_neg hban]

/-- Witness for `freq_read_out_of_band`: a capture delta of exactly
`TICKS_MAX + 1 = 66667` ticks is rejected, leaving the estimate at
100 Hz and moving the baseline to the new timestamp. -/
theorem freq_read_out_of_band_witness :
    ((freq_read ⟨1000, some 100, none, 0⟩ (some 67667) 0).state.freq_ema = some 100
    ∧ (freq_read ⟨1000, some 100, none, 0⟩ (some 67667) 0).state.prevIcr32 = u32 67667
    ∧ (freq_read ⟨1000, some 100, none, 0⟩ (some 67667) 0).path = .rejected) :=
  freq_read_out_of_band ⟨1000, some 100, none, 0⟩ 67667 0 (by decide) (by decide)

/-- C6 (counterexample): the priming branch is not taken *only* on the
first sample after (re)initialization.  Below, the first consumed
capture has extended timestamp exactly 0, so it primes the baseline
with 0; the second consumed capture — no longer the first since
initialization — then takes the priming branch again. -/
theorem freq_priming_not_first_counterexample :
    (freq_read (freq_init 0) (some 0) 10).path = .primed
    ∧ (freq_read (freq_read (freq_init 0) (some 0) 10).state (some 500) 20).path
        = .primed := by
  decide

/-- C6 (amended): a `freq_read` call that consumes a capture takes the
priming branch if and only if the stored baseline `s_prevIcr32` is the
sentinel 0.  After `freq_init` the baseline is 0 and stays 0 while no
capture is consumed, so the first consumed sample does prime; but the
converse fails in general because a capture whose extended timestamp is
exactly 0 re-arms the sentinel (see the counterexample). -/
theorem freq_priming_iff :
    (∀ (s : FreqState) (cap0 nowMs : ℕ),
        ((freq_read s (some cap0) nowMs).path = .primed ↔ s.prevIcr32 = 0))
    ∧ (∀ (startMs : ℕ) (events : List (Option ℕ × ℕ)),
        (∀ e ∈ events, e.1 = none) →
        (runFrom (freq_init startMs) events).prevIcr32 = 0) := by
  constructor
  · intro s cap0 nowMs
    unfold freq_read
    by_cases h0 : s.prevIcr32 = 0
    · simp [h0]
    · by_cases hband : TICKS_MIN ≤ sub32 (u32 cap0) s.prevIcr32 ∧
          sub32 (u32 cap0) s.prevIcr32 ≤ TICKS_MAX
      · simp [h0, hband]
      · simp [h0, hband]
  · intro startMs events hnone
    have key : ∀ (es : List (Option ℕ × ℕ)) (s : FreqState),
        (∀ e ∈ es, e.1 = none) → s.prevIcr32 = 0 → (runFrom s es).prevIcr32 = 0 := by
      intro es
      induction es with
      | nil => intro s _ h; exact h
      | cons e es ih =>
        intro s hnone h
        have he : e.1 = none := hnone e (List.mem_cons_self e es)
        have hs : (freq_read s e.1 e.2).state = s := by
          rw [he]; unfold freq_read; simp
        unfold runFrom
        rw [hs]
        exact ih s (fun x hx => hnone x (List.mem_cons_of_mem e hx)) h
    exact key events (freq_init startMs) hnone (by simp [freq_init])

/-- Witness for `freq_priming_iff` at concrete inputs. -/
theorem freq_priming_iff_witness :
    ((freq_read (freq_init 3) (some 42) 7).path = .primed ↔ (freq_init 3).prevIcr32 = 0)
    ∧ (runFrom (freq_init 3) [(none, 5), (none, 9)]).prevIcr32 = 0 :=
  ⟨freq_priming_iff.1 (freq_init 3) 42 7,
   freq_priming_iff.2 3 [(none, 5), (none, 9)] (by decide)⟩

/-! ### C float model for the display side

`HT1635.cpp` works with C floats that can be `NaN` or infinite
(`isfinite` checks at lines 54, 59, 250, 251).  `FloatR` models a float
by an exact real or one of the three non-finite values; `fltLt` and
`fltLe` are the C comparison operators, which are false whenever either
operand is NaN. -/

inductive FloatR where
  | nan
  | inf
  | ninf
  | fin (x : ℝ)

def FloatR.isfinite : FloatR → Bool
  | .fin _ => true
  | _ => false

/-- The real value of a finite float (only used under an `isfinite`
guard). -/
def FloatR.val : FloatR → ℝ
  | .fin x => x
  | _ => 0

/-- C `<` on floats: any comparison involving NaN is false. -/
def fltLt : FloatR → FloatR → Prop
  | .nan, _ => False
  | _, .nan => False
  | .ninf, .ninf => False
  | .ninf, _ => True
  | _, .ninf => False
  | .inf, _ => False
  | _, .inf => True
  | .fin x, .fin y => x < y

/-- C `<=` on floats: any comparison involving NaN is false. -/
def fltLe : FloatR → FloatR → Prop
  | .nan, _ => False
  | _, .nan => False
  | .ninf, _ => True
  | _, .ninf => False
  | _, .inf => True
  | .inf, _ => False
  | .fin x, .fin y => x ≤ y

/-! ### Pitch mapper (`HT1635::frequency_to_note`, `HT1635.cpp` lines 53-113)

The float expression `logf(freq / pitch_concert_a) * INV_LN2` (line 69,
with `INV_LN2 = 1.4426950408889634f`, the closest float to `1 / ln 2`)
is read in exact-real semantics as `Real.logb 2 (freq /
pitch_concert_a)`.  The `(int16_t)` cast of line 75 truncates toward
zero (`truncR`); C signed `/` and `%` (lines 78-79) are `Int.tdiv` and
`Int.tmod`. -/

/-- Truncation toward zero of a real number, the semantics of a C
integer cast of a float. -/
noncomputable def truncR (x : ℝ) : ℤ := if 0 ≤ x then ⌊x⌋ else ⌈x⌉

/-- `midi_f = 69.0f + 12.0f * ratio` with
`ratio = logf(freq/pca) * INV_LN2` (lines 69-72). -/
noncomputable def midiF (f pca : ℝ) : ℝ := 69 + 12 * Real.logb 2 (f / pca)

/-- Line 75: `(int16_t)(midi_f + (midi_f >= 0.0f ? 0.5f : -0.5f))`. -/
noncomputable def midiI (f pca : ℝ) : ℤ :=
  truncR (midiF f pca + if 0 ≤ midiF f pca then (1 : ℝ) / 2 else -(1 / 2))

/-- Line 78: `(uint8_t)((midi_i % 12 + 12) % 12)`. -/
def noteIndexOf (m : ℤ) : ℕ := ((m.tmod 12 + 12).tmod 12).toNat

/-- Line 79: `(int8_t)(midi_i / 12 - 1)`. -/
def octaveOf (m : ℤ) : ℤ := m.tdiv 12 - 1

/-- Lines 82-84: cents drift `(midi_f - (float)midi_i) * 100.0f` with
the anti-jitter clamp to `[-49.99, 49.99]`. -/
noncomputable def centsOf (mf : ℝ) (mi : ℤ) : ℝ :=
  if (mf - (mi : ℝ)) * 100 > 49.99 then 49.99
  else if (mf - (mi : ℝ)) * 100 < -49.99 then -49.99
  else (mf - (mi : ℝ)) * 100

/-- The static `note_names` table (lines 63-65): twelve two-character
entries, naturals padded with a trailing space. -/
def note_names : ℕ → String
  | 0 => "C "
  | 1 => "C#"
  | 2 => "D "
  | 3 => "D#"
  | 4 => "E "
  | 5 => "F "
  | 6 => "F#"
  | 7 => "G "
  | 8 => "G#"
  | 9 => "A "
  | 10 => "A#"
  | 11 => "B "
  | _ => ""

/-- Octave suffix composition (lines 96-107): optional minus sign,
optional leading digit 1 for octaves ≥ 10, and the final digit. -/
def octave_chars (o : ℤ) : String :=
  let s1 := if o < 0 then "-" else ""
  let o1 := if o < 0 then -o else o
  let s2 := if 10 ≤ o1 then "1" else ""
  let o2 := if 10 ≤ o1 then o1 - 10 else o1
  s1 ++ s2 ++ (Char.ofNat (48 + o2.toNat)).toString

/-- Observable result of `frequency_to_note`: the returned string and
the values written through the `cent_drift` and `midi_note` pointers. -/
structure PitchResult where
  name : String
  cents : ℝ
  midi : ℤ

section DisplayClassical

open Classical

/-- `HT1635::frequency_to_note` (lines 53-113): guard against
non-finite or sub-1 Hz input (line 54), substitute 440 Hz for a
non-finite or non-positive reference (lines 59-61), then compute the
MIDI number, note name with octave suffix, and clamped cents drift. -/
noncomputable def frequency_to_note (freq pitch_concert_a : FloatR) : PitchResult :=
  if ¬ freq.isfinite = true ∨ fltLt freq (.fin 1) then ⟨"", 0, 0⟩
  else
    let pca := if ¬ pitch_concert_a.isfinite = true ∨ fltLe pitch_concert_a (.fin 0)
      then (440 : ℝ) else pitch_concert_a.val
    let mf := midiF freq.val pca
    let mi := midiI freq.val pca
    ⟨note_names (noteIndexOf mi) ++ octave_chars (octaveOf mi),
     centsOf mf mi, mi⟩

/-- The rounding rule named by the specification: round to nearest with
ties away from zero, written sign-symmetrically. -/
noncomputable def roundAway (x : ℝ) : ℤ :=
  if 0 ≤ x then ⌊|x| + 1 / 2⌋ else -⌊|x| + 1 / 2⌋

/-- The C rounding idiom of line 75 computes exactly round-to-nearest
with ties away from zero. -/
lemma truncR_half_eq_roundAway (x : ℝ) :
    truncR (x + if 0 ≤ x then (1 : ℝ) / 2 else -(1 / 2)) = roundAway x := by
  unfold truncR roundAway
  by_cases hx : 0 ≤ x
  · rw [if_pos hx, if_pos hx, if_pos (by linarith : (0 : ℝ) ≤ x + 1 / 2),
      abs_of_nonneg hx]
  · push_neg at hx
    rw [if_neg (not_le.mpr hx), if_neg (not_le.mpr hx),
      if_neg (not_le.mpr (by linarith : x + -(1 / 2) < 0)), abs_of_neg hx,
      show x + -(1 / 2) = -(-x + 1 / 2) by ring, Int.ceil_neg]

lemma midiI_eq_roundAway (f pca : ℝ) : midiI f pca = roundAway (midiF f pca) :=
  truncR_half_eq_roundAway (midiF f pca)

/-- On a valid frequency (finite, at least 1 Hz) and a valid positive
reference, `frequency_to_note` runs the main computation with the
reference taken as given. -/
lemma frequency_to_note_valid (x r : ℝ) (hx : 1 ≤ x) (hr : 0 < r) :
    frequency_to_note (.fin x) (.fin r)
      = ⟨note_names (noteIndexOf (midiI x r)) ++ octave_chars (octaveOf (midiI x r)),
         centsOf (midiF x r) (midiI x r), midiI x r⟩ := by
  unfold frequency_to_note
  rw [if_neg (by
    simp only [FloatR.isfinite, fltLt]
    push_neg
    exact ⟨trivial, by linarith⟩)]
  rw [show (if ¬ (FloatR.fin r).isfinite = true ∨ fltLe (.fin r) (.fin 0) then (440 : ℝ)
      else (FloatR.fin r).val) = r from by
    rw [if_neg (by
      simp only [FloatR.isfinite, fltLe]
      push_neg
      exact ⟨trivial, by linarith⟩)]
    rfl]
  rfl

/-- C2: for every finite frequency at least 1 Hz with reference 440 Hz,
the computed MIDI number is `round(69 + 12·log2(f/440))` with
sign-correct rounding, ties away from zero; and
`map(440, 440)` yields the name "A 4" (note A, octave 4), MIDI 69 and
cents exactly 0. -/
theorem pitch_midi_formula :
    (∀ x r : ℝ, 1 ≤ x → 0 < r →
      (frequency_to_note (.fin x) (.fin r)).midi
        = roundAway (69 + 12 * Real.logb 2 (x / r)))
    ∧ (frequency_to_note (.fin 440) (.fin 440)).name = "A 4"
    ∧ (frequency_to_note (.fin 440) (.fin 440)).midi = 69
    ∧ (frequency_to_note (.fin 440) (.fin 440)).cents = 0 := by
  have hguard : ∀ x : ℝ, 1 ≤ x →
      frequency_to_note (.fin x) (.fin 440)
        = ⟨note_names (noteIndexOf (midiI x 440))
              ++ octave_chars (octaveOf (midiI x 440)),
           centsOf (midiF x 440) (midiI x 440), midiI x 440⟩ :=
    fun x hx => frequency_to_note_valid x 440 hx (by norm_num)
  have h440f : midiF 440 440 = 69 := by
    unfold midiF
    rw [div_self (by norm_num : (440 : ℝ) ≠ 0), Real.logb_one]
    ring
  have hfloor : ⌊(69 : ℝ) + 1 / 2⌋ = 69 := by
    rw [show ((69 : ℝ) + 1 / 2) = 1 / 2 + (69 : ℤ) by norm_num, Int.floor_add_int,
      show ⌊(1 / 2 : ℝ)⌋ = 0 from Int.floor_eq_zero_iff.mpr
        (by rw [Set.mem_Ico]; constructor <;> norm_num)]
    norm_num
  have h440 : midiI 440 440 = 69 := by
    rw [midiI_eq_roundAway, h440f]
    unfold roundAway
    rw [if_pos (by norm_num : (0 : ℝ) ≤ 69), abs_of_nonneg (by norm_num : (0 : ℝ) ≤ 69),
      hfloor]
  refine ⟨?_, ?_, ?_, ?_⟩
  · intro x r hx hr
    rw [frequency_to_note_valid x r hx hr]
    exact midiI_eq_roundAway x r
  · rw [hguard 440 (by norm_num), h440]
    decide
  · rw [hguard 440 (by norm_num), h440]
  · rw [hguard 440 (by norm_num), h440, h440f]
    norm_num [centsOf]

/-- Witness for `pitch_midi_formula` at the concrete input 440 Hz. -/
theorem pitch_midi_formula_witness :
    (1 : ℝ) ≤ 440
    ∧ (frequency_to_note (.fin 440) (.fin 440)).midi
        = roundAway (69 + 12 * Real.logb 2 (440 / 440)) :=
  ⟨by norm_num, pitch_midi_formula.1 440 440 (by norm_num) (by norm_num)⟩

/-- The clamp of lines 83-84 bounds its output by construction. -/
lemma centsOf_bounds (mf : ℝ) (mi : ℤ) :
    -49.99 ≤ centsOf mf mi ∧ centsOf mf mi ≤ 49.99 := by
  unfold centsOf
  split_ifs with h1 h2
  · norm_num
  · norm_num
  · push_neg at h1 h2
    exact ⟨h2, h1⟩

/-- C3: for every finite positive frequency/reference pair the returned
cents value is clamped to `[-49.99, 49.99]`, hence in particular lies in
`(-50, 50]`. -/
theorem pitch_cents_clamped (x r : ℝ) (_hx : 0 < x) (_hr : 0 < r) :
    -49.99 ≤ (frequency_to_note (.fin x) (.fin r)).cents
    ∧ (frequency_to_note (.fin x) (.fin r)).cents ≤ 49.99
    ∧ -50 < (frequency_to_note (.fin x) (.fin r)).cents
    ∧ (frequency_to_note (.fin x) (.fin r)).cents ≤ 50 := by
  have key : -49.99 ≤ (frequency_to_note (.fin x) (.fin r)).cents
      ∧ (frequency_to_note (.fin x) (.fin r)).cents ≤ 49.99 := by
    unfold frequency_to_note
    split
    · norm_num
    · exact centsOf_bounds _ _
  exact ⟨key.1, key.2, by linarith [key.1], by linarith [key.2]⟩

/-- Witness for `pitch_cents_clamped` at 440 Hz / 440 Hz. -/
theorem pitch_cents_clamped_witness :
    (0 : ℝ) < 440
    ∧ (-49.99 ≤ (frequency_to_note (.fin 440) (.fin 440)).cents
        ∧ (frequency_to_note (.fin 440) (.fin 440)).cents ≤ 49.99
        ∧ -50 < (frequency_to_note (.fin 440) (.fin 440)).cents
        ∧ (frequency_to_note (.fin 440) (.fin 440)).cents ≤ 50) :=
  ⟨by norm_num, pitch_cents_clamped 440 440 (by norm_num) (by norm_num)⟩

/-- Line 54: a non-finite frequency short-circuits to the empty
result. -/
lemma frequency_to_note_not_finite (f a : FloatR) (hf : f.isfinite = false) :
    frequency_to_note f a = ⟨"", 0, 0⟩ := by
  unfold frequency_to_note
  rw [if_pos (Or.inl (by simp [hf]))]

/-- Line 54: a sub-1 Hz frequency short-circuits to the empty
result. -/
lemma frequency_to_note_below_one (a : FloatR) (x : ℝ) (hx : x < 1) :
    frequency_to_note (.fin x) a = ⟨"", 0, 0⟩ := by
  unfold frequency_to_note
  rw [if_pos (Or.inr (by simpa [fltLt] using hx))]

/-- Lines 59-61: a non-finite or non-positive reference is replaced by
the safe default 440 Hz. -/
lemma frequency_to_note_subst (f a : FloatR)
    (ha : ¬ a.isfinite = true ∨ fltLe a (.fin 0)) :
    frequency_to_note f a = frequency_to_note f (.fin 440) := by
  unfold frequency_to_note
  split
  · rfl
  · norm_num [FloatR.isfinite, FloatR.val, fltLe]

/-- C7: non-finite or sub-1 Hz frequencies yield the empty/neutral
result (empty name, zero cents, zero MIDI number), and a non-finite or
non-positive reference pitch is silently replaced by 440 Hz. -/
theorem pitch_invalid_inputs :
    (∀ a : FloatR, frequency_to_note .nan a = ⟨"", 0, 0⟩)
    ∧ (∀ a : FloatR, frequency_to_note .inf a = ⟨"", 0, 0⟩)
    ∧ (∀ a : FloatR, frequency_to_note .ninf a = ⟨"", 0, 0⟩)
    ∧ (∀ (a : FloatR) (x : ℝ), x < 1 → frequency_to_note (.fin x) a = ⟨"", 0, 0⟩)
    ∧ (∀ f : FloatR, frequency_to_note f .nan = frequency_to_note f (.fin 440))
    ∧ (∀ f : FloatR, frequency_to_note f .inf = frequency_to_note f (.fin 440))
    ∧ (∀ f : FloatR, frequency_to_note f .ninf = frequency_to_note f (.fin 440))
    ∧ (∀ (f : FloatR) (r : ℝ), r ≤ 0 →
        frequency_to_note f (.fin r) = frequency_to_note f (.fin 440)) := by
  refine ⟨?_, ?_, ?_, ?_, ?_, ?_, ?_, ?_⟩
  · intro a; exact frequency_to_note_not_finite .nan a rfl
  · intro a; exact frequency_to_note_not_finite .inf a rfl
  · intro a; exact frequency_to_note_not_finite .ninf a rfl
  · intro a x hx; exact frequency_to_note_below_one a x hx
  · intro f; exact frequency_to_note_subst f .nan (Or.inl (by simp [FloatR.isfinite]))
  · intro f; exact frequency_to_note_subst f .inf (Or.inl (by simp [FloatR.isfinite]))
  · intro f; exact frequency_to_note_subst f .ninf (Or.inl (by simp [FloatR.isfinite]))
  · intro f r hr
    exact frequency_to_note_subst f (.fin r) (Or.inr (by simpa [fltLe] using hr))

/-- Witness for `pitch_invalid_inputs` at concrete inputs. -/
theorem pitch_invalid_inputs_witness :
    frequency_to_note (.fin (1 / 2)) (.fin 440) = ⟨"", 0, 0⟩
    ∧ frequency_to_note .nan (.fin 440) = ⟨"", 0, 0⟩
    ∧ frequency_to_note (.fin 880) (.fin (-5)) = frequency_to_note (.fin 880) (.fin 440) :=
  ⟨pitch_invalid_inputs.2.2.2.1 (.fin 440) (1 / 2) (by norm_num),
   pitch_invalid_inputs.1 (.fin 440),
   pitch_invalid_inputs.2.2.2.2.2.2.2 (.fin 880) (-5) (by norm_num)⟩

/-! ### View renderer (`HT1635.cpp` lines 175-302, 469-487)

The piano-keyboard cursor algorithm of `display_keyboard_drift` is
embedded as a state-passing function that also returns the
`write_byte` calls it performs (index/value pairs) and whether the
label transaction was emitted.  The 8-byte glyph tables of
`bitmap_fonts.h` are not part of the verified core; the keyboard
background bitmap is passed in as a parameter where needed, since no
claim depends on its byte values. -/

/-- `tuner_view_mode_t` (`HT1635.h` lines 150-156). -/
inductive TunerViewMode where
  | numeric
  | bar_graph
  | piano_view
deriving DecidableEq, Repr

/-- `note_pixel_center[13]` (lines 254-256): note centers across the
octave, plus the virtual high C at 30.  Indices beyond 12 are never
accessed (the interpolation index is at most 11, plus one). -/
def note_pixel_center : ℕ → ℕ
  | 0 => 2
  | 1 => 4
  | 2 => 6
  | 3 => 8
  | 4 => 10
  | 5 => 14
  | 6 => 16
  | 7 => 18
  | 8 => 20
  | 9 => 22
  | 10 => 24
  | 11 => 26
  | 12 => 30
  | _ => 0

/-- `kCol2NoteIdx[28]` (lines 198-206). -/
def kCol2NoteIdx : ℕ → ℕ
  | 0 => 6 | 1 => 0 | 2 => 0 | 3 => 0
  | 4 => 0 | 5 => 1 | 6 => 1 | 7 => 1
  | 8 => 1 | 9 => 2 | 10 => 2 | 11 => 2
  | 12 => 2 | 13 => 3 | 14 => 3 | 15 => 3
  | 16 => 3 | 17 => 4 | 18 => 4 | 19 => 4
  | 20 => 4 | 21 => 5 | 22 => 5 | 23 => 5
  | 24 => 5 | 25 => 6 | 26 => 6 | 27 => 6
  | _ => 0

/-- `kCol2Alter[28]` (lines 207-215): -1 flat, 0 natural, +1 sharp. -/
def kCol2Alter : ℕ → ℤ
  | 0 => 1 | 1 => -1 | 2 => 0 | 3 => 1
  | 4 => 1 | 5 => -1 | 6 => 0 | 7 => 1
  | 8 => 1 | 9 => -1 | 10 => 0 | 11 => 1
  | 12 => 1 | 13 => -1 | 14 => 0 | 15 => 1
  | 16 => 1 | 17 => -1 | 18 => 0 | 19 => 1
  | 20 => 1 | 21 => -1 | 22 => 0 | 23 => 1
  | 24 => 1 | 25 => -1 | 26 => 0 | 27 => 1
  | _ => 0

/-- `col_to_buf_row6` (lines 219-224): maps a column in 0..27 to the
framebuffer byte index of row 6 in its panel and the MSB-first bit
mask `1 << (7 - col % 8)`. -/
def col_to_buf_row6 (col : ℕ) : ℕ × ℕ :=
  ((col / 8) * 8 + 6, 2 ^ (7 - col % 8))

/-- The float literal `A2C4 = 0.5946035575013605f` (line 260), the
stored approximation of `2^(-9/12)`. -/
def A2C4 : ℝ := 0.5946035575013605

/-- Line 263: `st_c = 12.0f * (logf(freq / ref_c4) * INV_LN2)`,
semitones above C4 (with `INV_LN2` read as `1 / ln 2`). -/
noncomputable def st_c (f ref_c4 : ℝ) : ℝ := 12 * Real.logb 2 (f / ref_c4)

/-- Lines 272-273: `frac = st_c - base_st`, guarded against tiny
negatives. -/
noncomputable def kb_frac (st : ℝ) : ℝ :=
  if st - (⌊st⌋ : ℝ) < 0 then 0 else st - (⌊st⌋ : ℝ)

/-- Lines 274-276: interpolated column between the two adjacent note
centers; the index is `(base_st % 12 + 12) % 12` (same expression as
`noteIndexOf`). -/
noncomputable def kb_col_f (st : ℝ) : ℝ :=
  (note_pixel_center (noteIndexOf ⌊st⌋) : ℝ) * (1 - kb_frac st)
    + (note_pixel_center (noteIndexOf ⌊st⌋ + 1) : ℝ) * kb_frac st

/-- `constrain(col, 0, 27)` (line 280), Arduino macro semantics. -/
def clamp27 (c : ℤ) : ℤ := if c < 0 then 0 else if 27 < c then 27 else c

/-- Lines 279-280: `col = (int)(col_f + 0.5f)` then clamp to 0..27. -/
noncomputable def kb_col (st : ℝ) : ℤ := clamp27 (truncR (kb_col_f st + 1 / 2))

/-- Lines 267-269: lower-semitone-bin octave,
`(int8_t)((60 + base_st) / 12 - 1)`. -/
def kb_octave (base_st : ℤ) : ℤ := (60 + base_st).tdiv 12 - 1

/-- The renderer's per-mode diff state (`s_prev_col`,
`s_prev_note_idx`, `s_prev_alt`, `s_prev_octave`, lines 227-230) plus
the mirrored framebuffer `_bitmap_buffer` (byte index → byte value). -/
structure KbState where
  prev_col : ℤ
  prev_note_idx : ℕ
  prev_alt : ℤ
  prev_octave : ℤ
  buffer : ℕ → ℕ

/-- Point update of the framebuffer. -/
def updf (b : ℕ → ℕ) (i v : ℕ) : ℕ → ℕ := fun j => if j = i then v else b j

/-- The first `write_byte` of the cursor-move branch (lines 288-293):
XOR-toggle the previously lit pixel's byte. -/
def kb_clear_write (s : KbState) : ℕ × ℕ :=
  ((col_to_buf_row6 s.prev_col.toNat).1,
    Nat.xor (s.buffer (col_to_buf_row6 s.prev_col.toNat).1)
      (col_to_buf_row6 s.prev_col.toNat).2)

/-- The framebuffer after the clearing write. -/
def kb_buffer_after_clear (s : KbState) : ℕ → ℕ :=
  updf s.buffer (kb_clear_write s).1 (kb_clear_write s).2

/-- The second `write_byte` of the cursor-move branch (lines 296-299):
XOR the new pixel's bit into its byte. -/
def kb_set_write (s : KbState) (col : ℤ) : ℕ × ℕ :=
  ((col_to_buf_row6 col.toNat).1,
    Nat.xor (kb_buffer_after_clear s (col_to_buf_row6 col.toNat).1)
      (col_to_buf_row6 col.toNat).2)

/-- The cursor pixel phase of `display_keyboard_drift` (lines
282-302): skip all pixel writes when the column did not move;
otherwise clear the previous pixel (only if `0 <= s_prev_col <= 27`)
and light the new one, recording each single-byte `write_byte` call. -/
def kb_pixel_step (s : KbState) (col : ℤ) : KbState × List (ℕ × ℕ) :=
  if col = s.prev_col then (s, [])
  else if 0 ≤ s.prev_col ∧ s.prev_col ≤ 27 then
    ({ s with
        buffer := updf (kb_buffer_after_clear s) (kb_set_write s col).1 (kb_set_write s col).2,
        prev_col := col },
      [kb_clear_write s, kb_set_write s col])
  else
    ({ s with
        buffer := updf s.buffer (kb_set_write s col).1 (kb_set_write s col).2,
        prev_col := col },
      [kb_set_write s col])

/-- The label phase of `display_keyboard_drift` (lines 304-353):
look up the note/alteration for the clamped column, clamp the octave
to 0..9, and rewrite the label module only when the triple changed.
Returns the new state and whether the 8-byte label transaction was
emitted. -/
def kb_label_step (s : KbState) (col oct : ℤ) : KbState × Bool :=
  let note_idx := kCol2NoteIdx col.toNat
  let alt := kCol2Alter col.toNat
  let od := if oct < 0 then 0 else if 9 < oct then 9 else oct
  if note_idx ≠ s.prev_note_idx ∨ alt ≠ s.prev_alt ∨ od ≠ s.prev_octave then
    ({ s with prev_note_idx := note_idx, prev_alt := alt, prev_octave := od }, true)
  else (s, false)

/-- Result of one `display_keyboard_drift` call: new renderer state,
the single-byte pixel writes performed, whether the label was
re-rendered, the clamped cursor column used for all lookups and pixel
writes (`none` on the early return), and whether the call returned
silently at the sanity guard. -/
structure KbResult where
  state : KbState
  pixelWrites : List (ℕ × ℕ)
  labelWritten : Bool
  colUsed : Option ℤ
  silent : Bool

/-- `HT1635::display_keyboard_drift` (lines 248-354): sanity guard on
the inputs (lines 250-251), semitone position relative to C4 via the
stored `A2C4` constant (lines 260-263), cursor pixel phase, then label
phase. -/
noncomputable def display_keyboard_drift (s : KbState) (freq ref_a4 : FloatR) : KbResult :=
  if ¬ freq.isfinite = true ∨ fltLe freq (.fin 0) then ⟨s, [], false, none, true⟩
  else
    let ra := if ¬ ref_a4.isfinite = true ∨ fltLe ref_a4 (.fin 0) then (440 : ℝ)
      else ref_a4.val
    let st := st_c freq.val (ra * A2C4)
    let ps := kb_pixel_step s (kb_col st)
    let ls := kb_label_step ps.1 (kb_col st) (kb_octave ⌊st⌋)
    ⟨ls.1, ps.2, ls.2, some (kb_col st), false⟩

/-- `HT1635::display_keyboard` (lines 234-241): copy the keyboard
background bitmap into the framebuffer, send it out whole, and reset
all diff-tracking state to the unknown sentinels.  The glyph bytes
live in `bitmap_fonts.h`, outside the verified core, so the bitmap is
a parameter. -/
def display_keyboard (fontKb : ℕ → ℕ) (_s : KbState) : KbState :=
  { buffer := fontKb, prev_col := -1, prev_note_idx := 255, prev_alt := 99,
    prev_octave := 99 }

/-- Display-side state: the active tuner view mode
(`_tuner_view_mode`) plus the renderer state. -/
structure DispState where
  mode : TunerViewMode
  kb : KbState

/-- Observable effect of a mode switch: the new state, whether
`clear_display` ran (it always does), and whether the full keyboard
bitmap was sent. -/
structure SwitchResult where
  state : DispState
  cleared : Bool
  sentKeyboardBitmap : Bool

/-- `HT1635::update_display` (lines 175-182): `clear_display()` always
runs (zeroing the framebuffer and the device); in piano view the
keyboard bitmap is then drawn via `display_keyboard`, otherwise
`clear_display()` runs a second time. -/
def update_display (fontKb : ℕ → ℕ) (d : DispState) : SwitchResult :=
  let d1 : DispState := ⟨d.mode, { d.kb with buffer := fun _ => 0 }⟩
  if d1.mode = .piano_view then
    ⟨⟨d1.mode, display_keyboard fontKb d1.kb⟩, true, true⟩
  else
    ⟨⟨d1.mode, { d1.kb with buffer := fun _ => 0 }⟩, true, false⟩

/-- `HT1635::set_tuner_view_mode` (lines 186-190): store the new mode
and run `update_display`. -/
def set_tuner_view_mode (fontKb : ℕ → ℕ) (d : DispState) (mode : TunerViewMode) :
    SwitchResult :=
  update_display fontKb ⟨mode, d.kb⟩

/-- What one `render_pitch_and_drift` call does, by constructor:
`placeholder` is the `print_string5("-    ")` short-circuit;
`pianoAct` delegates to `display_keyboard_drift` without consulting
the pitch mapper; `mapped` consults `frequency_to_note` and prints its
name and drift. -/
inductive RenderAct where
  | placeholder
  | pianoAct (r : KbResult)
  | mapped (p : PitchResult)

/-- `HT1635::render_pitch_and_drift` (lines 469-487). -/
noncomputable def render_pitch_and_drift (mode : TunerViewMode) (s : KbState)
    (freq concert_ref_a min_valid_freq : FloatR) : RenderAct :=
  if fltLt freq min_valid_freq then .placeholder
  else if mode = .piano_view then
    .pianoAct (display_keyboard_drift s freq concert_ref_a)
  else .mapped (frequency_to_note freq concert_ref_a)

/-- The renderer state at program start: the static initializers of
lines 227-230 (previous column -1, note index 0xFF, alteration 99,
octave 99) with the framebuffer zeroed by the constructor (lines
568-571). -/
def kb_start : KbState := ⟨-1, 255, 99, 99, fun _ => 0⟩

/-- C4 (counterexample): the claim fails for NaN.  C float comparison
makes `NaN < min_valid_freq` false, so a NaN frequency does not take
the placeholder short-circuit; in piano view the renderer instead
returns silently from `display_keyboard_drift`, drawing nothing and
emitting no placeholder. -/
theorem render_nonfinite_counterexample :
    render_pitch_and_drift .piano_view kb_start .nan (.fin 440) (.fin 10)
      = .pianoAct ⟨kb_start, [], false, none, true⟩
    ∧ render_pitch_and_drift .piano_view kb_start .nan (.fin 440) (.fin 10)
      ≠ .placeholder := by
  have h : render_pitch_and_drift .piano_view kb_start .nan (.fin 440) (.fin 10)
      = .pianoAct ⟨kb_start, [], false, none, true⟩ := by
    simp [render_pitch_and_drift, display_keyboard_drift, fltLt, FloatR.isfinite]
  exact ⟨h, by rw [h]; intro hc; exact RenderAct.noConfusion hc⟩

/-- C4 (amended): every frequency that compares below the floor under
C float ordering (all finite sub-floor values and -inf, but not NaN or
+inf) makes every mode short-circuit to the placeholder without
consulting the pitch mapper.  NaN and +inf do not compare below the
floor: in piano view the renderer returns without any write, and in
the numeric/bar modes the mapper is consulted and returns the neutral
empty result. -/
theorem render_below_floor :
    (∀ (mode : TunerViewMode) (s : KbState) (a m freq : FloatR),
        fltLt freq m → render_pitch_and_drift mode s freq a m = .placeholder)
    ∧ (∀ (s : KbState) (a m : FloatR),
        render_pitch_and_drift .piano_view s .nan a m
          = .pianoAct ⟨s, [], false, none, true⟩)
    ∧ (∀ (s : KbState) (a m : FloatR),
        render_pitch_and_drift .piano_view s .inf a m
          = .pianoAct ⟨s, [], false, none, true⟩)
    ∧ (∀ (mode : TunerViewMode) (s : KbState) (a m : FloatR), mode ≠ .piano_view →
        render_pitch_and_drift mode s .nan a m = .mapped ⟨"", 0, 0⟩)
    ∧ (∀ (mode : TunerViewMode) (s : KbState) (a m : FloatR), mode ≠ .piano_view →
        render_pitch_and_drift mode s .inf a m = .mapped ⟨"", 0, 0⟩) := by
  refine ⟨?_, ?_, ?_, ?_, ?_⟩
  · intro mode s a m freq h
    unfold render_pitch_and_drift
    rw [if_pos h]
  · intro s a m
    cases m <;>
      simp [render_pitch_and_drift, display_keyboard_drift, fltLt, FloatR.isfinite]
  · intro s a m
    cases m <;>
      simp [render_pitch_and_drift, display_keyboard_drift, fltLt, FloatR.isfinite]
  · intro mode s a m hmode
    have hn : frequency_to_note .nan a = ⟨"", 0, 0⟩ :=
      frequency_to_note_not_finite .nan a rfl
    cases m <;> simp [render_pitch_and_drift, fltLt, hmode, hn]
  · intro mode s a m hmode
    have hn : frequency_to_note .inf a = ⟨"", 0, 0⟩ :=
      frequency_to_note_not_finite .inf a rfl
    cases m <;> simp [render_pitch_and_drift, fltLt, hmode, hn]

/-- Witness for `render_below_floor` at concrete inputs: 5 Hz is below
the 10 Hz floor and yields the placeholder; a NaN frequency in numeric
mode yields the mapped empty result instead. -/
theorem render_below_floor_witness :
    render_pitch_and_drift .numeric kb_start (.fin 5) (.fin 440) (.fin 10) = .placeholder
    ∧ render_pitch_and_drift .numeric kb_start .nan (.fin 440) (.fin 10)
        = .mapped ⟨"", 0, 0⟩ :=
  ⟨render_below_floor.1 .numeric kb_start (.fin 440) (.fin 10) (.fin 5)
      (by simp [fltLt]; norm_num),
   render_below_floor.2.2.2.1 .numeric kb_start (.fin 440) (.fin 10) (by simp)⟩

/-- C8 (counterexample): switching to a non-piano mode does not reset
the diff-tracking state.  Here a switch from piano to numeric view
leaves `s_prev_col` at 5 instead of resetting it to the unknown
sentinel -1. -/
theorem mode_switch_reset_counterexample :
    (set_tuner_view_mode (fun _ => 0)
        ⟨.piano_view, ⟨5, 3, 0, 4, fun _ => 0⟩⟩ .numeric).state.kb.prev_col = 5
    ∧ (5 : ℤ) ≠ -1 := by
  exact ⟨rfl, by decide⟩

/-- C8 (amended): every mode switch forces a full redraw: the display
and mirrored framebuffer are always cleared, and on entry to piano
view the full keyboard bitmap is sent and all diff-tracking state
(previous cursor column, previous note/alteration/octave label triple)
is reset to the unknown sentinels.  On a switch to the numeric or
bar-graph modes the diff-tracking state is left unchanged (those modes
redraw unconditionally and keep no bar-mask diff state at all). -/
theorem mode_switch_redraw (fontKb : ℕ → ℕ) (d : DispState) (mode : TunerViewMode) :
    (set_tuner_view_mode fontKb d mode).state.mode = mode
    ∧ (set_tuner_view_mode fontKb d mode).cleared = true
    ∧ (mode = .piano_view →
        (set_tuner_view_mode fontKb d mode).sentKeyboardBitmap = true
        ∧ (set_tuner_view_mode fontKb d mode).state.kb.prev_col = -1
        ∧ (set_tuner_view_mode fontKb d mode).state.kb.prev_note_idx = 255
        ∧ (set_tuner_view_mode fontKb d mode).state.kb.prev_alt = 99
        ∧ (set_tuner_view_mode fontKb d mode).state.kb.prev_octave = 99)
    ∧ (mode ≠ .piano_view →
        (set_tuner_view_mode fontKb d mode).sentKeyboardBitmap = false
        ∧ (set_tuner_view_mode fontKb d mode).state.kb.prev_col = d.kb.prev_col
        ∧ (set_tuner_view_mode fontKb d mode).state.kb.prev_note_idx = d.kb.prev_note_idx
        ∧ (set_tuner_view_mode fontKb d mode).state.kb.prev_alt = d.kb.prev_alt
        ∧ (set_tuner_view_mode fontKb d mode).state.kb.prev_octave = d.kb.prev_octave) := by
  cases mode <;> simp [set_tuner_view_mode, update_display, display_keyboard]

/-- Toggling a single bit off: XOR with the bit's power-of-two mask
clears a set bit. -/
lemma testBit_xor_pow_true (x k : ℕ) (h : x.testBit k = true) :
    (Nat.xor x (2 ^ k)).testBit k = false := by
  show ((x ^^^ (2 ^ k)).testBit k) = false
  rw [Nat.testBit_xor, h, Nat.testBit_two_pow_self]
  rfl

/-- Toggling a single bit on: XOR with the bit's power-of-two mask
sets a clear bit. -/
lemma testBit_xor_pow_false (x k : ℕ) (h : x.testBit k = false) :
    (Nat.xor x (2 ^ k)).testBit k = true := by
  show ((x ^^^ (2 ^ k)).testBit k) = true
  rw [Nat.testBit_xor, h, Nat.testBit_two_pow_self]
  rfl

lemma clamp27_range (c : ℤ) : 0 ≤ clamp27 c ∧ clamp27 c ≤ 27 := by
  unfold clamp27
  split_ifs <;> omega

lemma kb_col_range (st : ℝ) : 0 ≤ kb_col st ∧ kb_col st ≤ 27 := by
  unfold kb_col
  exact clamp27_range _

/-- C9: in piano-keyboard view the cursor column delivered to every
table lookup and pixel write is clamped to [0, 27]; when the column
did not move no pixel byte is written; and when it moved (with a valid
previous column) exactly the two single-byte writes of lines 288-299
occur, the first XOR-toggling the previously lit pixel's bit off and
the second XOR-toggling the new pixel's bit on. -/
theorem kb_cursor_writes :
    (∀ st : ℝ, 0 ≤ kb_col st ∧ kb_col st ≤ 27)
    ∧ (∀ (s : KbState) (freq ref : FloatR) (c : ℤ),
        (display_keyboard_drift s freq ref).colUsed = some c → 0 ≤ c ∧ c ≤ 27)
    ∧ (∀ (s : KbState) (freq ref : FloatR),
        (display_keyboard_drift s freq ref).silent = false →
        ∃ c, (display_keyboard_drift s freq ref).colUsed = some c
          ∧ (display_keyboard_drift s freq ref).pixelWrites = (kb_pixel_step s c).2)
    ∧ (∀ (s : KbState) (col : ℤ), col = s.prev_col → (kb_pixel_step s col).2 = [])
    ∧ (∀ (s : KbState) (col : ℤ), col ≠ s.prev_col → 0 ≤ s.prev_col → s.prev_col ≤ 27 →
        (kb_pixel_step s col).2 = [kb_clear_write s, kb_set_write s col]
        ∧ ((kb_pixel_step s col).2).length = 2)
    ∧ (∀ s : KbState,
        Nat.testBit (s.buffer (col_to_buf_row6 s.prev_col.toNat).1)
            (7 - s.prev_col.toNat % 8) = true →
        Nat.testBit (kb_clear_write s).2 (7 - s.prev_col.toNat % 8) = false)
    ∧ (∀ (s : KbState) (col : ℤ),
        Nat.testBit (kb_buffer_after_clear s (col_to_buf_row6 col.toNat).1)
            (7 - col.toNat % 8) = false →
        Nat.testBit (kb_set_write s col).2 (7 - col.toNat % 8) = true) := by
  refine ⟨kb_col_range, ?_, ?_, ?_, ?_, ?_, ?_⟩
  · intro s freq ref c hc
    by_cases hg : ¬ freq.isfinite = true ∨ fltLe freq (.fin 0)
    · unfold display_keyboard_drift at hc
      rw [if_pos hg] at hc
      exact absurd hc (by simp)
    · unfold display_keyboard_drift at hc
      rw [if_neg hg] at hc
      simp only [Option.some.injEq] at hc
      rw [← hc]
      exact kb_col_range _
  · intro s freq ref hs
    by_cases hg : ¬ freq.isfinite = true ∨ fltLe freq (.fin 0)
    · unfold display_keyboard_drift at hs
      rw [if_pos hg] at hs
      exact absurd hs (by simp)
    · refine ⟨kb_col (st_c freq.val
        ((if ¬ ref.isfinite = true ∨ fltLe ref (.fin 0) then (440 : ℝ) else ref.val)
          * A2C4)), ?_, ?_⟩
      · unfold display_keyboard_drift
        rw [if_neg hg]
      · unfold display_keyboard_drift
        rw [if_neg hg]
  · intro s col h
    unfold kb_pixel_step
    rw [if_pos h]
  · intro s col h h0 h27
    unfold kb_pixel_step
    rw [if_neg h, if_pos ⟨h0, h27⟩]
    exact ⟨rfl, rfl⟩
  · intro s hbit
    exact testBit_xor_pow_true _ _ hbit
  · intro s col hbit
    exact testBit_xor_pow_false _ _ hbit

/-- Witness for `kb_cursor_writes` at concrete inputs: a 100 Hz signal
is not silent; an unmoved cursor writes nothing; a move from column 5
to column 2 emits exactly the clear and set writes, toggling byte 6
bit 2 off and byte 6 bit 5 on. -/
theorem kb_cursor_writes_witness :
    (0 ≤ kb_col 0 ∧ kb_col 0 ≤ 27)
    ∧ (∃ c, (display_keyboard_drift kb_start (.fin 100) (.fin 440)).colUsed = some c
        ∧ (display_keyboard_drift kb_start (.fin 100) (.fin 440)).pixelWrites
            = (kb_pixel_step kb_start c).2)
    ∧ (kb_pixel_step ⟨5, 255, 99, 99, fun i => if i = 6 then 4 else 0⟩ 5).2 = []
    ∧ (kb_pixel_step ⟨5, 255, 99, 99, fun i => if i = 6 then 4 else 0⟩ 2).2
        = [kb_clear_write ⟨5, 255, 99, 99, fun i => if i = 6 then 4 else 0⟩,
           kb_set_write ⟨5, 255, 99, 99, fun i => if i = 6 then 4 else 0⟩ 2]
    ∧ Nat.testBit (kb_clear_write ⟨5, 255, 99, 99, fun i => if i = 6 then 4 else 0⟩).2 2
        = false
    ∧ Nat.testBit
        (kb_set_write ⟨5, 255, 99, 99, fun i => if i = 6 then 4 else 0⟩ 2).2 5 = true := by
  refine ⟨kb_cursor_writes.1 0, ?_, ?_, ?_, ?_, ?_⟩
  · exact kb_cursor_writes.2.2.1 kb_start (.fin 100) (.fin 440)
      (by
        unfold display_keyboard_drift
        rw [if_neg (by
          simp only [FloatR.isfinite, fltLe]
          push_neg
          exact ⟨trivial, by norm_num⟩)])
  · exact kb_cursor_writes.2.2.2.1 ⟨5, 255, 99, 99, fun i => if i = 6 then 4 else 0⟩ 5 rfl
  · exact (kb_cursor_writes.2.2.2.2.1 ⟨5, 255, 99, 99, fun i => if i = 6 then 4 else 0⟩ 2
      (by decide) (by decide) (by decide)).1
  · exact kb_cursor_writes.2.2.2.2.2.1 ⟨5, 255, 99, 99, fun i => if i = 6 then 4 else 0⟩
      (by decide)
  · exact kb_cursor_writes.2.2.2.2.2.2 ⟨5, 255, 99, 99, fun i => if i = 6 then 4 else 0⟩ 2
      (by decide)

/-- Adjacent note centers are nondecreasing across the 13 anchors. -/
lemma note_pixel_center_le_succ : ∀ k, k ≤ 11 → note_pixel_center k ≤ note_pixel_center (k + 1) := by
  decide

/-- The note-center table is monotone on its 13 anchors. -/
lemma note_pixel_center_chain : ∀ b, b ≤ 12 → ∀ a, a ≤ b →
    note_pixel_center a ≤ note_pixel_center b := by
  decide

/-- Truncation toward zero is monotone. -/
lemma truncR_mono {x y : ℝ} (h : x ≤ y) : truncR x ≤ truncR y := by
  unfold truncR
  split_ifs with hx hy
  · exact Int.floor_mono h
  · exact absurd (le_trans hx h) hy
  · calc ⌈x⌉ ≤ 0 := by
          rw [show (0 : ℤ) = ⌈(0 : ℝ)⌉ by simp]
          exact Int.ceil_mono (le_of_not_le hx)
      _ ≤ ⌊y⌋ := Int.floor_nonneg.mpr (by assumption)
  · exact Int.ceil_mono h

lemma clamp27_mono {c d : ℤ} (h : c ≤ d) : clamp27 c ≤ clamp27 d := by
  unfold clamp27
  split_ifs <;> omega

/-- The tiny-negative guard of line 273 never fires in exact reals. -/
lemma kb_frac_eq (st : ℝ) : kb_frac st = st - (⌊st⌋ : ℝ) := by
  unfold kb_frac
  rw [if_neg (not_lt.mpr (by linarith [Int.floor_le st]))]

/-- For a base semitone in 0..11 the double-`tmod` index is the base
itself. -/
lemma noteIndexOf_small {m : ℤ} (h0 : 0 ≤ m) (h12 : m < 12) : noteIndexOf m = m.toNat := by
  unfold noteIndexOf
  rw [Int.tmod_eq_emod h0 (by norm_num), Int.emod_eq_of_lt h0 h12,
    Int.tmod_eq_emod (by omega) (by norm_num), Int.add_emod_self,
    Int.emod_eq_of_lt h0 h12]

/-- Within the octave, the interpolated column is the affine
interpolation between the floor bin's center and the next one. -/
lemma kb_col_f_eq {st : ℝ} (h0 : 0 ≤ st) (h12 : st < 12) :
    kb_col_f st = (note_pixel_center ⌊st⌋.toNat : ℝ) * (1 - (st - (⌊st⌋ : ℝ)))
      + (note_pixel_center (⌊st⌋.toNat + 1) : ℝ) * (st - (⌊st⌋ : ℝ)) := by
  unfold kb_col_f
  rw [kb_frac_eq, noteIndexOf_small (Int.floor_nonneg.mpr h0)
    (Int.floor_lt.mpr (by exact_mod_cast h12))]

/-- The interpolated column is nondecreasing across the octave
`0 ≤ st < 12`. -/
lemma kb_col_f_mono {s t : ℝ} (hs : 0 ≤ s) (hst : s ≤ t) (ht : t < 12) :
    kb_col_f s ≤ kb_col_f t := by
  have hs12 : s < 12 := lt_of_le_of_lt hst ht
  have ht0 : 0 ≤ t := le_trans hs hst
  have hfs0 : (0 : ℤ) ≤ ⌊s⌋ := Int.floor_nonneg.mpr hs
  have hft0 : (0 : ℤ) ≤ ⌊t⌋ := Int.floor_nonneg.mpr ht0
  have hfs12 : ⌊s⌋ < 12 := Int.floor_lt.mpr (by exact_mod_cast hs12)
  have hft12 : ⌊t⌋ < 12 := Int.floor_lt.mpr (by exact_mod_cast ht)
  have hfmono : ⌊s⌋ ≤ ⌊t⌋ := Int.floor_mono hst
  have hfs_lo : (⌊s⌋ : ℝ) ≤ s := Int.floor_le s
  have hfs_hi : s < (⌊s⌋ : ℝ) + 1 := Int.lt_floor_add_one s
  have hft_lo : (⌊t⌋ : ℝ) ≤ t := Int.floor_le t
  have hft_hi : t < (⌊t⌋ : ℝ) + 1 := Int.lt_floor_add_one t
  have hk11 : ⌊s⌋.toNat ≤ 11 := by omega
  have hm11 : ⌊t⌋.toNat ≤ 11 := by omega
  have hck : (note_pixel_center ⌊s⌋.toNat : ℝ) ≤ note_pixel_center (⌊s⌋.toNat + 1) := by
    exact_mod_cast Nat.cast_le.mpr (note_pixel_center_le_succ _ hk11)
  have hcm : (note_pixel_center ⌊t⌋.toNat : ℝ) ≤ note_pixel_center (⌊t⌋.toNat + 1) := by
    exact_mod_cast Nat.cast_le.mpr (note_pixel_center_le_succ _ hm11)
  rw [kb_col_f_eq hs hs12, kb_col_f_eq ht0 ht]
  by_cases hcase : ⌊s⌋ = ⌊t⌋
  · rw [hcase]
    have hfr : t - (⌊t⌋ : ℝ) - (s - (⌊t⌋ : ℝ)) = t - s := by ring
    nlinarith [mul_le_mul_of_nonneg_left (by linarith : s - (⌊t⌋ : ℝ) ≤ t - (⌊t⌋ : ℝ))
      (by linarith : (0 : ℝ) ≤ (note_pixel_center (⌊t⌋.toNat + 1) : ℝ)
        - (note_pixel_center ⌊t⌋.toNat : ℝ))]
  · have hklt : ⌊s⌋ < ⌊t⌋ := lt_of_le_of_ne hfmono hcase
    have hk1m : ⌊s⌋.toNat + 1 ≤ ⌊t⌋.toNat := by omega
    have hchain : (note_pixel_center (⌊s⌋.toNat + 1) : ℝ) ≤ note_pixel_center ⌊t⌋.toNat := by
      exact_mod_cast Nat.cast_le.mpr
        (note_pixel_center_chain ⌊t⌋.toNat (by omega) (⌊s⌋.toNat + 1) hk1m)
    have hup : (note_pixel_center ⌊s⌋.toNat : ℝ) * (1 - (s - (⌊s⌋ : ℝ)))
        + (note_pixel_center (⌊s⌋.toNat + 1) : ℝ) * (s - (⌊s⌋ : ℝ))
        ≤ (note_pixel_center (⌊s⌋.toNat + 1) : ℝ) := by
      nlinarith [mul_le_mul_of_nonneg_right hck (by linarith : (0 : ℝ) ≤ 1 - (s - (⌊s⌋ : ℝ)))]
    have hdown : (note_pixel_center ⌊t⌋.toNat : ℝ)
        ≤ (note_pixel_center ⌊t⌋.toNat : ℝ) * (1 - (t - (⌊t⌋ : ℝ)))
          + (note_pixel_center (⌊t⌋.toNat + 1) : ℝ) * (t - (⌊t⌋ : ℝ)) := by
      nlinarith [mul_le_mul_of_nonneg_right hcm (by linarith : (0 : ℝ) ≤ t - (⌊t⌋ : ℝ))]
    linarith

/-- The clamped cursor column is nondecreasing across the octave. -/
lemma kb_col_mono {s t : ℝ} (hs : 0 ≤ s) (hst : s ≤ t) (ht : t < 12) :
    kb_col s ≤ kb_col t := by
  unfold kb_col
  exact clamp27_mono (truncR_mono (by linarith [kb_col_f_mono hs hst ht]))

/-- For a positive frequency and valid reference the drift call is not
silent and uses the column of the code's semitone position. -/
lemma display_keyboard_drift_colUsed (s : KbState) (x r : ℝ) (hx : 0 < x) (hr : 0 < r) :
    (display_keyboard_drift s (.fin x) (.fin r)).colUsed
      = some (kb_col (st_c x (r * A2C4))) := by
  unfold display_keyboard_drift
  rw [if_neg (by
    simp only [FloatR.isfinite, fltLe]
    push_neg
    exact ⟨trivial, by linarith⟩)]
  rw [show (if ¬ (FloatR.fin r).isfinite = true ∨ fltLe (.fin r) (.fin 0) then (440 : ℝ)
      else (FloatR.fin r).val) = r from by
    rw [if_neg (by
      simp only [FloatR.isfinite, fltLe]
      push_neg
      exact ⟨trivial, by linarith⟩)]
    rfl]
  rfl

/-- C10: for a fixed valid reference pitch, the piano-keyboard cursor
column produced by the renderer is nondecreasing along any
nondecreasing pair of frequencies inside the supported octave
`[ref·A2C4, 2·ref·A2C4)` (C4 to just below the next C). -/
theorem kb_cursor_monotone (s1 s2 : KbState) (x1 x2 r : ℝ) (hr : 0 < r)
    (hlo : r * A2C4 ≤ x1) (hx12 : x1 ≤ x2) (hhi : x2 < 2 * (r * A2C4)) :
    ∃ c1 c2,
      (display_keyboard_drift s1 (.fin x1) (.fin r)).colUsed = some c1
      ∧ (display_keyboard_drift s2 (.fin x2) (.fin r)).colUsed = some c2
      ∧ c1 ≤ c2 := by
  have hA : (0 : ℝ) < A2C4 := by norm_num [A2C4]
  have hrc : 0 < r * A2C4 := mul_pos hr hA
  have hx1 : 0 < x1 := lt_of_lt_of_le hrc hlo
  have hx2 : 0 < x2 := lt_of_lt_of_le hx1 hx12
  have hst1 : 0 ≤ st_c x1 (r * A2C4) := by
    unfold st_c
    have h1 : (1 : ℝ) ≤ x1 / (r * A2C4) := (one_le_div hrc).mpr hlo
    have := Real.logb_nonneg (by norm_num : (1 : ℝ) < 2) h1
    linarith
  have hstm : st_c x1 (r * A2C4) ≤ st_c x2 (r * A2C4) := by
    unfold st_c
    have h1 : 0 < x1 / (r * A2C4) := div_pos hx1 hrc
    have h2 : x1 / (r * A2C4) ≤ x2 / (r * A2C4) := by
      gcongr
    have := Real.logb_le_logb_of_le (by norm_num : (1 : ℝ) < 2) h1 h2
    linarith
  have hst2 : st_c x2 (r * A2C4) < 12 := by
    unfold st_c
    have h2 : 0 < x2 / (r * A2C4) := div_pos hx2 hrc
    have hlt : x2 / (r * A2C4) < 2 := by
      rw [div_lt_iff₀ hrc]
      linarith
    have : Real.logb 2 (x2 / (r * A2C4)) < 1 := by
      rw [Real.logb_lt_iff_lt_rpow (by norm_num : (1 : ℝ) < 2) h2, Real.rpow_one]
      exact hlt
    linarith
  exact ⟨kb_col (st_c x1 (r * A2C4)), kb_col (st_c x2 (r * A2C4)),
    display_keyboard_drift_colUsed s1 x1 r hx1 hr,
    display_keyboard_drift_colUsed s2 x2 r hx2 hr,
    kb_col_mono hst1 hstm hst2⟩

/-- Witness for `kb_cursor_monotone`: the sweep from C4 to G4 (with
reference 440 Hz) produces nondecreasing columns. -/
theorem kb_cursor_monotone_witness :
    ∃ c1 c2,
      (display_keyboard_drift kb_start (.fin (440 * A2C4)) (.fin 440)).colUsed = some c1
      ∧ (display_keyboard_drift kb_start (.fin (660 * A2C4)) (.fin 440)).colUsed = some c2
      ∧ c1 ≤ c2 :=
  kb_cursor_monotone kb_start kb_start (440 * A2C4) (660 * A2C4) 440 (by norm_num)
    (by norm_num [A2C4]) (by norm_num [A2C4]) (by norm_num [A2C4])

/-- Witness for `mode_switch_redraw` on a switch into piano view. -/
theorem mode_switch_redraw_witness :
    (set_tuner_view_mode (fun _ => 0)
        ⟨.numeric, ⟨5, 3, 0, 4, fun _ => 0⟩⟩ .piano_view).state.kb.prev_col = -1
    ∧ (set_tuner_view_mode (fun _ => 0)
        ⟨.numeric, ⟨5, 3, 0, 4, fun _ => 0⟩⟩ .piano_view).cleared = true :=
  ⟨((mode_switch_redraw (fun _ => 0) ⟨.numeric, ⟨5, 3, 0, 4, fun _ => 0⟩⟩
      .piano_view).2.2.1 rfl).2.1,
   (mode_switch_redraw (fun _ => 0) ⟨.numeric, ⟨5, 3, 0, 4, fun _ => 0⟩⟩
      .piano_view).2.1⟩

end DisplayClassical

end OT4
